import Mathlib

/-!
Shallow embedding of the go-kardia byzantine-evidence pool
(package `evidence`, file containing `Pool`, `NewPool`, `AddEvidence`,
`AddEvidenceFromConsensus`, `CheckEvidence`, `Update`, `PendingEvidence`,
`listEvidence`, `removeExpiredPendingEvidence`, `isExpired`,
`markEvidenceAsCommitted`, `addPendingEvidence`, `removePendingEvidence`).

Machine integers are modelled as `Nat` with explicit `% 2^64` / `% 2^32`
where Go wraps (uint64 height subtraction, the uint32 pending counter);
`time.Time` is modelled as an `Int` of nanoseconds, `time.Duration` and
the signed consensus parameters as `Int` (int64); `time.Time.Sub`
saturates at the int64 bounds exactly as in Go's standard library.

The durable store (`kaidb.Database`, an external collaborator) is
modelled as two sorted association lists, one per key namespace
("evidence-pending" / "evidence-committed"); the Go key layout is
`prefix || %0.16X(height) || "/" || %X(hash)`, whose lexicographic
order over fixed-width hex equals the numeric lexicographic order on
`(height, hash)` that the model uses.  A pending value is either an
evidence record or an entry whose bytes fail to unmarshal
(`PendVal.bad`), which is how per-entry deserialization failures are
represented.
-/

namespace EvidencePool


/-- 2^64, the modulus of Go's uint64 arithmetic. -/
def U64 : Nat := 2 ^ 64

/-- 2^32, the modulus of Go's uint32 arithmetic. -/

def U32 : Nat := 2 ^ 32

/-- Wrapping uint64 subtraction `a - b` (for `a < U64` this is exactly
Go's `a - b` on uint64). -/

def usub64 (a b : Nat) : Nat := (a + U64 - b % U64) % U64

/-- Go's `uint64(x)` conversion of a signed int64 value. -/

def toU64 (i : Int) : Nat := (i % (U64 : Int)).toNat

/-- Largest `time.Duration` (int64 nanoseconds). -/

def durMax : Int := 2 ^ 63 - 1

/-- Smallest `time.Duration`. -/

def durMin : Int := -(2 ^ 63)

/-- `time.Time.Sub`: the difference in nanoseconds, saturating at the
int64 duration bounds as in Go's standard library. -/

def timeSub (t u : Int) : Int := max durMin (min durMax (t - u))

/-- One nanosecond count of `time.Second`. -/

def oneSecond : Int := 1000000000

/-- A `types.Evidence` value: its uint64 height, its time (ns), its
hash (the sole de-duplication identity), and `protoSize`.
Modelled from the spec: `protoSize` is the number of bytes this
evidence contributes to the serialized size of a protobuf
`EvidenceData` list (the generated `EvidenceData.Size()` code is not
part of the excerpted sources; the spec describes it as an
"externally-meaningful serialized-size counter"). -/

structure Evidence where
  height : Nat
  time : Int
  hash : Nat
  protoSize : Nat
deriving DecidableEq, Repr

/-- A storage key: `(height, hash)`, matching the Go key suffix
`%0.16X(height) || "/" || %X(hash)` under numeric-lexicographic
order. -/

abbrev Key := Nat × Nat

/-- `keyPending` / `keyCommitted` key suffix of an evidence. -/

def keyOf (ev : Evidence) : Key := (ev.height, ev.hash)

/-- A value stored under the pending namespace: either bytes that
unmarshal to an evidence, or bytes whose `Unmarshal` fails. -/

inductive PendVal where
  | good (ev : Evidence)
  | bad
deriving DecidableEq, Repr

abbrev PendDB := List (Key × PendVal)

abbrev CommDB := List (Key × Nat)

/-- Strict lexicographic order on keys (the durable store's iteration
order). -/

def keyLtb (a b : Key) : Bool := decide (a.1 < b.1) || (decide (a.1 = b.1) && decide (a.2 < b.2))

/-- `Database.Put`: sorted insert, replacing an existing entry with the
same key. -/

def dbPut {α : Type} : List (Key × α) → Key → α → List (Key × α)
  | [], k, v => [(k, v)]
  | (k', v') :: rest, k, v =>
    if keyLtb k k' then (k, v) :: (k', v') :: rest
    else if k = k' then (k, v) :: rest
    else (k', v') :: dbPut rest k v

/-- `Database.Has`. -/

def dbHas {α : Type} (l : List (Key × α)) (k : Key) : Bool :=
  l.any (fun e => decide (e.1 = k))

/-- `Database.Delete` (removing a key that is absent succeeds, as in
the underlying store). -/

def dbDelete {α : Type} (l : List (Key × α)) (k : Key) : List (Key × α) :=
  l.filter (fun e => !(decide (e.1 = k)))

/-- `cstate.LatestBlockState`, restricted to the fields the evidence
pool reads: `LastBlockHeight` (uint64), `LastBlockTime`, and the
consensus evidence parameters `MaxAgeNumBlocks` (int64) and
`MaxAgeDuration` (int64 nanoseconds). -/

structure LatestBlockState where
  lastBlockHeight : Nat
  lastBlockTime : Int
  maxAgeNumBlocks : Int
  maxAgeDuration : Int
deriving DecidableEq, Repr

/-- The `Pool` state: the two durable namespaces, the concurrent
gossip list (`evidenceList`), the uint32 pending counter
(`evidenceSize`), the latest state snapshot, and the pruning
watermark. -/

structure PoolState where
  pending : PendDB
  committed : CommDB
  evidenceList : List Evidence
  evidenceSize : Nat
  state : LatestBlockState
  pruningHeight : Nat
  pruningTime : Int
deriving DecidableEq, Repr

/-- `Pool.isPending`. -/

def isPending (p : PoolState) (ev : Evidence) : Bool := dbHas p.pending (keyOf ev)

/-- `Pool.isCommitted`. -/

def isCommitted (p : PoolState) (ev : Evidence) : Bool := dbHas p.committed (keyOf ev)

/-- `Pool.isExpired`: `ageNumBlocks` is the wrapping uint64 subtraction
`state.LastBlockHeight - height`; `ageDuration` is
`state.LastBlockTime.Sub(time)`; expired iff both exceed the
parameters (with `MaxAgeNumBlocks` converted by `uint64(...)`). -/

def isExpired (p : PoolState) (height : Nat) (time : Int) : Bool :=
  let ageNumBlocks := usub64 p.state.lastBlockHeight height
  let ageDuration := timeSub p.state.lastBlockTime time
  decide (ageNumBlocks > toU64 p.state.maxAgeNumBlocks) &&
    decide (ageDuration > p.state.maxAgeDuration)

/-- `Pool.addPendingEvidence`: persist under the pending key and
atomically increment the uint32 counter.  (Marshal and `Put` cannot
fail in the in-memory model.) -/

def addPendingEvidence (p : PoolState) (ev : Evidence) : PoolState :=
  { p with pending := dbPut p.pending (keyOf ev) (PendVal.good ev),
           evidenceSize := (p.evidenceSize + 1) % U32 }

/-- `Pool.removePendingEvidence`: delete the pending key and add
`^uint32(0)` (i.e. decrement modulo 2^32). -/

def removePendingEvidence (p : PoolState) (ev : Evidence) : PoolState :=
  { p with pending := dbDelete p.pending (keyOf ev),
           evidenceSize := (p.evidenceSize + (U32 - 1)) % U32 }

/-- `Pool.removeEvidenceFromList`: drop from the gossip list every
element whose hash is in the block-evidence map. -/

def removeEvidenceFromList (p : PoolState) (m : List Nat) : PoolState :=
  { p with evidenceList := p.evidenceList.filter (fun e => !(m.contains e.hash)) }

/-- One iteration of `Pool.markEvidenceAsCommitted`'s loop: if the
evidence is pending, remove it from the pending namespace and record
its hash in the block-evidence map; in every case write the committed
marker (the height) under the committed key. -/

def markStep (acc : PoolState × List Nat) (ev : Evidence) : PoolState × List Nat :=
  let pm : PoolState × List Nat :=
    if isPending acc.1 ev then (removePendingEvidence acc.1 ev, acc.2 ++ [ev.hash])
    else (acc.1, acc.2)
  ({ pm.1 with committed := dbPut pm.1.committed (keyOf ev) ev.height }, pm.2)

/-- `Pool.markEvidenceAsCommitted`: process every evidence with
`markStep`, then remove the collected hashes from the gossip list when
the map is non-empty. -/

def markEvidenceAsCommitted (p : PoolState) (evs : List Evidence) : PoolState :=
  let r := evs.foldl markStep (p, [])
  if r.2.isEmpty then r.1 else removeEvidenceFromList r.1 r.2

/-- The loop of `Pool.removeExpiredPendingEvidence`, iterating over a
snapshot of the pending namespace in key order.  An entry whose bytes
fail to unmarshal is logged and skipped (and stays in the store).  An
expired record is deleted and its hash collected; the first
non-expired record stops the scan and determines the new watermark
`(ev.Height()+uint64(MaxAgeNumBlocks)+1, ev.Time()+MaxAgeDuration+1s)`;
an exhausted scan returns the current chain
`(LastBlockHeight, LastBlockTime)`. -/

def pruneGo : PoolState → List (Key × PendVal) → List Nat → PoolState × Nat × Int
  | p, [], m =>
    let p' := if m.isEmpty then p else removeEvidenceFromList p m
    (p', p'.state.lastBlockHeight, p'.state.lastBlockTime)
  | p, (_, PendVal.bad) :: rest, m => pruneGo p rest m
  | p, (_, PendVal.good ev) :: rest, m =>
    if isExpired p ev.height ev.time then
      pruneGo (removePendingEvidence p ev) rest (m ++ [ev.hash])
    else
      let p' := if m.isEmpty then p else removeEvidenceFromList p m
      (p', (ev.height + toU64 p'.state.maxAgeNumBlocks + 1) % U64,
        ev.time + p'.state.maxAgeDuration + oneSecond)

/-- `Pool.removeExpiredPendingEvidence`: returns the updated pool and
the new pruning watermark. -/

def removeExpiredPendingEvidence (p : PoolState) : PoolState × Nat × Int :=
  pruneGo p p.pending []

/-- The loop of `Pool.listEvidence`: walks the pending entries in key
order, accumulating the cumulative protobuf list size; `sz` is the
size of the proto list built so far (including the current entry once
appended), `total` is `totalSize`, assigned only after an entry is
admitted.  The boolean result records whether the scan returned with
an unmarshal error. -/

def listGo (maxBytes : Int) : List (Key × PendVal) → List Evidence → Nat → Int →
    List Evidence × Int × Bool
  | [], acc, _, total => (acc, total, false)
  | (_, PendVal.bad) :: _, acc, _, total => (acc, total, true)
  | (_, PendVal.good ev) :: rest, acc, sz, total =>
    let sz2 := sz + ev.protoSize
    if maxBytes ≠ -1 ∧ (sz2 : Int) > maxBytes then (acc, total, false)
    else listGo maxBytes rest (acc ++ [ev]) sz2 (sz2 : Int)

/-- `Pool.listEvidence` over the pending namespace: evidence oldest
first, the accumulated serialized size, and an error flag. -/

def listEvidence (entries : PendDB) (maxBytes : Int) : List Evidence × Int × Bool :=
  listGo maxBytes entries [] 0 0

/-- `Pool.PendingEvidence`: empty when the atomic size counter is
zero; otherwise lists from the pending namespace, logging (and
otherwise ignoring) an iteration error. -/

def PendingEvidence (p : PoolState) (maxBytes : Int) : List Evidence × Int :=
  if p.evidenceSize = 0 then ([], 0)
  else
    let r := listEvidence p.pending maxBytes
    (r.1, r.2.1)

/-- `Pool.AddEvidence`'s result: `nil` or `ErrInvalidEvidence`. -/

inductive AddRes where
  | ok
  | invalidEvidence
deriving DecidableEq, Repr

/-- `Pool.AddEvidence` with the external verification collaborator
abstracted as the oracle `verifyOk` (the `verify` routine lives
outside the excerpted sources): no-op success if pending; no-op
success if committed; `ErrInvalidEvidence` if verification fails;
otherwise persist to pending, push onto the gossip list. -/

def AddEvidence (verifyOk : Evidence → Bool) (p : PoolState) (ev : Evidence) :
    AddRes × PoolState :=
  if isPending p ev then (AddRes.ok, p)
  else if isCommitted p ev then (AddRes.ok, p)
  else if !(verifyOk ev) then (AddRes.invalidEvidence, p)
  else
    let p1 := addPendingEvidence p ev
    (AddRes.ok, { p1 with evidenceList := p1.evidenceList ++ [ev] })

/-- `Pool.AddEvidenceFromConsensus`: no-op success if pending;
otherwise persist to pending and push onto the gossip list (no
verification and no committed check). -/

def AddEvidenceFromConsensus (p : PoolState) (ev : Evidence) : PoolState :=
  if isPending p ev then p
  else
    let p1 := addPendingEvidence p ev
    { p1 with evidenceList := p1.evidenceList ++ [ev] }

/-- The reason carried by the `ErrInvalidEvidence` that
`Pool.CheckEvidence` returns. -/

inductive CheckReason where
  | duplicateEvidence
  | alreadyCommitted
  | verifyFailed
deriving DecidableEq, Repr

/-- The loop of `Pool.CheckEvidence`: per item, `fastCheck`
(pending?); if not, reject committed evidence, verify, and admit to
the pending namespace (no gossip-list push); then compare the item's
hash against every earlier hash of the batch. -/

def checkGo (verifyOk : Evidence → Bool) :
    PoolState → List Evidence → List Nat → Option (Evidence × CheckReason) × PoolState
  | p, [], _ => (none, p)
  | p, ev :: rest, hashes =>
    if isPending p ev then
      if hashes.contains ev.hash then (some (ev, CheckReason.duplicateEvidence), p)
      else checkGo verifyOk p rest (hashes ++ [ev.hash])
    else if isCommitted p ev then (some (ev, CheckReason.alreadyCommitted), p)
    else if !(verifyOk ev) then (some (ev, CheckReason.verifyFailed), p)
    else
      let p1 := addPendingEvidence p ev
      if hashes.contains ev.hash then (some (ev, CheckReason.duplicateEvidence), p1)
      else checkGo verifyOk p1 rest (hashes ++ [ev.hash])

/-- `Pool.CheckEvidence`. -/

def CheckEvidence (verifyOk : Evidence → Bool) (p : PoolState) (evs : List Evidence) :
    Option (Evidence × CheckReason) × PoolState :=
  checkGo verifyOk p evs []

/-- `Pool.Update`: panic (modelled as `none`) when the new state's
height is not strictly greater; otherwise replace the state snapshot,
mark the block's evidence committed, and when the pool is non-empty
and the new height/time lie strictly beyond the watermark, run one
pruning pass and store the returned watermark. -/

def Update (p : PoolState) (ns : LatestBlockState) (evs : List Evidence) :
    Option PoolState :=
  if ns.lastBlockHeight ≤ p.state.lastBlockHeight then none
  else
    let p1 := { p with state := ns }
    let p2 := markEvidenceAsCommitted p1 evs
    if 0 < p2.evidenceSize ∧ p2.pruningHeight < ns.lastBlockHeight ∧
        p2.pruningTime < ns.lastBlockTime then
      let r := removeExpiredPendingEvidence p2
      some { r.1 with pruningHeight := r.2.1, pruningTime := r.2.2 }
    else some p2

/-- `NewPool`: start from the stored namespaces and the loaded state,
run one expiry pass to set the watermark, then list the surviving
pending evidence to set the uint32 size (`uint32(len(evList))`) and
rebuild the gossip list; a listing error fails construction. -/

def NewPool (pendingDB : PendDB) (committedDB : CommDB) (st : LatestBlockState) :
    Option PoolState :=
  let p0 : PoolState :=
    { pending := pendingDB, committed := committedDB, evidenceList := [],
      evidenceSize := 0, state := st, pruningHeight := 0, pruningTime := 0 }
  let r := removeExpiredPendingEvidence p0
  let p1 := { r.1 with pruningHeight := r.2.1, pruningTime := r.2.2 }
  let l := listEvidence p1.pending (-1)
  if l.2.2 then none
  else some { p1 with evidenceSize := l.1.length % U32, evidenceList := l.1 }

/-- The evidence records decoded from a run of pending entries
(skipping undecodable ones). -/

def pendingEvs (entries : PendDB) : List Evidence :=
  entries.filterMap (fun kv => match kv.2 with
    | PendVal.good ev => some ev
    | PendVal.bad => none)

/-- Total serialized size of a list of evidence, per the abstract
per-item contribution `protoSize`. -/

def evsSize (l : List Evidence) : Nat := l.foldl (fun s e => s + e.protoSize) 0

/-- Whether a pending entry decodes to an expired record, relative to
pool `p` (an undecodable entry is not expired). -/

def entryExpired (p : PoolState) (kv : Key × PendVal) : Bool :=
  match kv.2 with
  | PendVal.good ev => isExpired p ev.height ev.time
  | PendVal.bad => false

/-- The expiry predicate the spec states, read over the true integers:
both the block age and the wall-clock age strictly exceed their
bounds. -/

def expiredSpec (lastH lastT maxB maxD : Int) (h0 t0 : Int) : Prop :=
  lastH - h0 > maxB ∧ lastT - t0 > maxD

instance (lastH lastT maxB maxD h0 t0 : Int) :
    Decidable (expiredSpec lastH lastT maxB maxD h0 t0) := by
  unfold expiredSpec; infer_instance

/-- An all-zero pool value, used only as the default of `Option.getD`
in concrete executions (never actually selected). -/

def dummyPool : PoolState :=
  { pending := [], committed := [], evidenceList := [], evidenceSize := 0,
    state := { lastBlockHeight := 0, lastBlockTime := 0,
               maxAgeNumBlocks := 0, maxAgeDuration := 0 },
    pruningHeight := 0, pruningTime := 0 }

/-- A verification oracle that accepts everything. -/

def vtrue : Evidence → Bool := fun _ => true

/- ### Helper lemmas (shared) -/

def c1st : LatestBlockState :=
  { lastBlockHeight := 10, lastBlockTime := 1000 * oneSecond,
    maxAgeNumBlocks := 5, maxAgeDuration := 100 * oneSecond }

/-- Evidence at height 9 used by the C1 trace. -/

def c1ev : Evidence := { height := 9, time := 999 * oneSecond, hash := 3, protoSize := 10 }

/-- Pool built by: construct on empty storage at height 10, admit
`c1ev` through the consensus path, commit it via `Update` to height
11, then re-submit it through the consensus path. -/

def c1final : PoolState :=
  let q0 := (NewPool [] [] c1st).getD dummyPool
  let q1 := AddEvidenceFromConsensus q0 c1ev
  let q2 := (Update q1
    { lastBlockHeight := 11, lastBlockTime := 1001 * oneSecond,
      maxAgeNumBlocks := 5, maxAgeDuration := 100 * oneSecond } [c1ev]).getD q1
  AddEvidenceFromConsensus q2 c1ev

/-- C1 counterexample: a pool state reached purely through the public
API (`NewPool`, `AddEvidenceFromConsensus`, `Update`) in which the
same evidence hash is a member of both the pending and the committed
namespaces — `AddEvidenceFromConsensus` does not check `isCommitted`,
so re-submitting committed evidence re-admits it to pending. -/

def c1wp : PoolState :=
  { pending := [], committed := [((9, 3), 9)], evidenceList := [],
    evidenceSize := 0, state := c1st, pruningHeight := 10,
    pruningTime := 1000 * oneSecond }

/-- Witness for `c1_trusted_add_spec` at a concrete input: committed
but not pending evidence is re-admitted to pending while committed is
preserved. -/

def c2wp : PoolState :=
  { pending := [], committed := [], evidenceList := [], evidenceSize := 0,
    state := c1st, pruningHeight := 10, pruningTime := 1000 * oneSecond }

/-- Witness for `c2_add_evidence_spec`: a fresh evidence passing
verification is persisted, gossiped and counted. -/

def c7wp : PoolState :=
  { pending := [], committed := [], evidenceList := [], evidenceSize := 0,
    state := c1st, pruningHeight := 10, pruningTime := 1000 * oneSecond }

/-- Chain state at height 12 for the C7 witness. -/

def c7ns : LatestBlockState :=
  { lastBlockHeight := 12, lastBlockTime := 1002 * oneSecond,
    maxAgeNumBlocks := 5, maxAgeDuration := 100 * oneSecond }

/-- Witness for `c7_update_spec`: updating to a strictly greater
height replaces the state snapshot. -/

def c8ev : Evidence := { height := 4, time := 0, hash := 9, protoSize := 10 }

/-- Pool with `c8ev` already committed (and not pending). -/

def c8cp : PoolState :=
  { pending := [], committed := [((4, 9), 4)], evidenceList := [],
    evidenceSize := 0, state := c1st, pruningHeight := 10,
    pruningTime := 1000 * oneSecond }

/-- C8 counterexample: `CheckEvidence([ev, ev])` on evidence that is
already committed fails with the already-committed reason, not with
the duplicate-evidence reason — the committed check fires on the
first occurrence, before the pairwise duplicate comparison. -/

def c8wp : PoolState :=
  { pending := [((4, 9), PendVal.good c8ev)], committed := [], evidenceList := [c8ev],
    evidenceSize := 1, state := c1st, pruningHeight := 10,
    pruningTime := 1000 * oneSecond }

/-- Witness for `c8_check_duplicate_spec`: on a pool where the
evidence is pending, the batch `[ev, ev]` is rejected as duplicate. -/

def c9ev : Evidence := { height := 8, time := 999 * oneSecond, hash := 2, protoSize := 10 }

/-- C9 counterexample: with an undecodable entry ahead of a good one
in the pending namespace, the listing scan does not skip the bad
entry and continue — it stops, returning no evidence and an error —
and pool construction (`NewPool`) consequently fails as a whole. -/

def c10wp : PoolState :=
  { pending := [], committed := [], evidenceList := [], evidenceSize := 0,
    state := c1st, pruningHeight := 10, pruningTime := 1000 * oneSecond }

/-- Witness for `c10_future_height_spec`: evidence at the future
height 12 with the chain at height 10. -/

def c10cst : LatestBlockState :=
  { lastBlockHeight := 2, lastBlockTime := 1000 * oneSecond,
    maxAgeNumBlocks := 3, maxAgeDuration := oneSecond }

/-- Pool for the C10 counterexample. -/

def c10cp : PoolState :=
  { pending := [], committed := [], evidenceList := [], evidenceSize := 0,
    state := c10cst, pruningHeight := 0, pruningTime := 0 }

/-- C10 counterexample: evidence at the maximal uint64 height
`2^64 - 1` with the chain at height 2 wraps to the small block age 3,
which does not exceed the bound 3 — so this future-height evidence is
protected by the height bound and is not expired even though its
duration condition is amply satisfied, refuting "never protected by
the height bound". -/

def c3cp : PoolState :=
  { pending := [], committed := [], evidenceList := [], evidenceSize := 0,
    state := c1st, pruningHeight := 10, pruningTime := 1000 * oneSecond }

/-- Witness for `c3_expiry_iff` at a concrete input: evidence at
height 3 that is old in both blocks and wall-clock time. -/

def c6ev : Evidence := { height := 1, time := 0, hash := 1, protoSize := 10 }

/-- Pool with one pending item of serialized size 10. -/

def c6cp : PoolState :=
  { pending := [((1, 1), PendVal.good c6ev)], committed := [], evidenceList := [c6ev],
    evidenceSize := 1, state := c1st, pruningHeight := 10,
    pruningTime := 1000 * oneSecond }

/-- Witness for `c6_pending_evidence_spec`: with `max_bytes = 3` the
10-byte item is excluded and the returned size is bounded; with
`max_bytes = -1` the item is returned. -/

def c4old : Evidence := { height := 10, time := 0, hash := 1, protoSize := 10 }

/-- Fresh pending evidence (height 98, recent) for the C4 witness. -/

def c4fresh : Evidence := { height := 98, time := 995 * oneSecond, hash := 2, protoSize := 10 }

/-- Chain state at height 100 for the C4 and C5 concrete runs. -/

def c4st : LatestBlockState :=
  { lastBlockHeight := 100, lastBlockTime := 1000 * oneSecond,
    maxAgeNumBlocks := 5, maxAgeDuration := 100 * oneSecond }

/-- Pool whose pending namespace holds `c4old` then `c4fresh`. -/

def c4wp : PoolState :=
  { pending := [((10, 1), PendVal.good c4old), ((98, 2), PendVal.good c4fresh)],
    committed := [], evidenceList := [c4old, c4fresh], evidenceSize := 2,
    state := c4st, pruningHeight := 90, pruningTime := 900 * oneSecond }

/-- Witness for `c4_pruning_pass_spec`: the expired record is removed,
the fresh record survives and determines the watermark. -/

def c5wp : PoolState :=
  { pending := [((98, 2), PendVal.good c4fresh)], committed := [],
    evidenceList := [c4fresh], evidenceSize := 1, state := c4st,
    pruningHeight := 90, pruningTime := 900 * oneSecond }

/-- Witness for `c5_watermark_progress` at a concrete input. -/

def c5p1 : PoolState :=
  AddEvidenceFromConsensus ((NewPool [] [] c4st).getD dummyPool)
    { height := 50, time := 990 * oneSecond, hash := 7, protoSize := 20 }

/-- The pool after `Update` to height 101 with no committed evidence:
the guard passes and the pruning pass runs. -/

def c5p2 : PoolState :=
  (Update c5p1
    { lastBlockHeight := 101, lastBlockTime := 1001 * oneSecond,
      maxAgeNumBlocks := 5, maxAgeDuration := 100 * oneSecond } []).getD c5p1

/-- C5 counterexample: across this concrete API-only sequence
(`NewPool`, `AddEvidenceFromConsensus`, `Update`) the pruning
watermark height decreases from 100 to 56 — the surviving record is
old in blocks but young in wall-clock time, so the recomputed
watermark height `50 + 5 + 1` lies below the previous watermark. -/

theorem state_removePendingEvidence (p : PoolState) (ev : Evidence) :
    (removePendingEvidence p ev).state = p.state := rfl

theorem state_removeEvidenceFromList (p : PoolState) (m : List Nat) :
    (removeEvidenceFromList p m).state = p.state := rfl

theorem pruning_removePendingEvidence (p : PoolState) (ev : Evidence) :
    (removePendingEvidence p ev).pruningHeight = p.pruningHeight ∧
      (removePendingEvidence p ev).pruningTime = p.pruningTime := ⟨rfl, rfl⟩

theorem markStep_state (acc : PoolState × List Nat) (ev : Evidence) :
    (markStep acc ev).1.state = acc.1.state := by
  unfold markStep
  dsimp only
  split <;> rfl

theorem foldl_markStep_state (evs : List Evidence) :
    ∀ acc : PoolState × List Nat, (evs.foldl markStep acc).1.state = acc.1.state := by
  induction evs with
  | nil => intro acc; rfl
  | cons ev rest ih =>
    intro acc
    rw [List.foldl_cons, ih (markStep acc ev), markStep_state]

theorem markEvidenceAsCommitted_state (p : PoolState) (evs : List Evidence) :
    (markEvidenceAsCommitted p evs).state = p.state := by
  unfold markEvidenceAsCommitted
  dsimp only
  split
  · exact foldl_markStep_state evs (p, [])
  · rw [state_removeEvidenceFromList, foldl_markStep_state]

theorem pruneGo_state (entries : List (Key × PendVal)) :
    ∀ (p : PoolState) (m : List Nat), (pruneGo p entries m).1.state = p.state := by
  induction entries with
  | nil =>
    intro p m
    unfold pruneGo
    dsimp only
    split <;> rfl
  | cons kv rest ih =>
    intro p m
    obtain ⟨k, v⟩ := kv
    cases v with
    | bad => exact ih p m
    | good ev =>
      unfold pruneGo
      dsimp only
      split
      · exact ih _ _
      · split <;> rfl

theorem dbHas_dbPut_self {α : Type} (l : List (Key × α)) (k : Key) (v : α) :
    dbHas (dbPut l k v) k = true := by
  induction l with
  | nil => simp [dbPut, dbHas]
  | cons kv rest ih =>
    unfold dbPut
    split
    · simp [dbHas]
    · split
      · simp [dbHas]
      · simp only [dbHas, List.any_cons]
        rw [dbHas] at ih
        simp [ih]

/- ### C1 -/

/-- Chain state at height 10 used by the C1 trace. -/

theorem c1_counterexample :
    isPending c1final c1ev = true ∧ isCommitted c1final c1ev = true := by decide

/-- C1 (amended): `AddEvidenceFromConsensus` skips both the
verification step and the already-committed check of `AddEvidence`:
it is a no-op exactly when the evidence is already pending, and
otherwise admits the evidence to the pending namespace while leaving
the committed namespace untouched — in particular evidence that is
already committed is re-admitted to pending. -/

theorem c1_trusted_add_spec (p : PoolState) (ev : Evidence) :
    (isPending p ev = true → AddEvidenceFromConsensus p ev = p) ∧
    (isPending p ev = false →
      isPending (AddEvidenceFromConsensus p ev) ev = true ∧
      (AddEvidenceFromConsensus p ev).committed = p.committed) := by
  constructor
  · intro h
    simp [AddEvidenceFromConsensus, h]
  · intro h
    simp only [AddEvidenceFromConsensus, h, Bool.false_eq_true, if_false]
    constructor
    · simp only [isPending, addPendingEvidence]
      exact dbHas_dbPut_self p.pending (keyOf ev) (PendVal.good ev)
    · rfl

/-- Concrete pool with `c1ev` committed and nothing pending. -/

theorem c1_witness :
    isPending c1wp c1ev = false ∧ isCommitted c1wp c1ev = true ∧
      isPending (AddEvidenceFromConsensus c1wp c1ev) c1ev = true ∧
      (AddEvidenceFromConsensus c1wp c1ev).committed = c1wp.committed :=
  ⟨by decide, by decide,
    ((c1_trusted_add_spec c1wp c1ev).2 (by decide)).1,
    ((c1_trusted_add_spec c1wp c1ev).2 (by decide)).2⟩

/- ### C2 -/

/-- C2: `AddEvidence` is a no-op success on already-pending and on
already-committed evidence; otherwise it returns `ErrInvalidEvidence`
exactly when the verification oracle rejects (leaving the pool
unchanged), and on verification success it persists the evidence to
the pending namespace, appends it to the gossip list, and increments
the pending count by one. -/

theorem c2_add_evidence_spec (vo : Evidence → Bool) (p : PoolState) (ev : Evidence)
    (hsz : p.evidenceSize + 1 < U32) :
    (isPending p ev = true → AddEvidence vo p ev = (AddRes.ok, p)) ∧
    (isPending p ev = false → isCommitted p ev = true →
      AddEvidence vo p ev = (AddRes.ok, p)) ∧
    (isPending p ev = false → isCommitted p ev = false → vo ev = false →
      AddEvidence vo p ev = (AddRes.invalidEvidence, p)) ∧
    (isPending p ev = false → isCommitted p ev = false →
      ((AddEvidence vo p ev).1 = AddRes.invalidEvidence ↔ vo ev = false)) ∧
    (isPending p ev = false → isCommitted p ev = false → vo ev = true →
      AddEvidence vo p ev = (AddRes.ok,
        { p with pending := dbPut p.pending (keyOf ev) (PendVal.good ev),
                 evidenceSize := p.evidenceSize + 1,
                 evidenceList := p.evidenceList ++ [ev] })) := by
  refine ⟨?_, ?_, ?_, ?_, ?_⟩
  · intro h1
    simp [AddEvidence, h1]
  · intro h1 h2
    simp [AddEvidence, h1, h2]
  · intro h1 h2 h3
    simp [AddEvidence, h1, h2, h3]
  · intro h1 h2
    cases h3 : vo ev with
    | false => simp [AddEvidence, h1, h2, h3]
    | true => simp [AddEvidence, h1, h2, h3, addPendingEvidence]
  · intro h1 h2 h3
    simp only [AddEvidence, h1, h2, h3, Bool.false_eq_true, if_false, Bool.not_true,
      addPendingEvidence]
    rw [Nat.mod_eq_of_lt hsz]

/-- Concrete empty pool at height 10. -/

theorem c2_witness :
    isPending c2wp c1ev = false ∧ isCommitted c2wp c1ev = false ∧
      AddEvidence vtrue c2wp c1ev = (AddRes.ok,
        { c2wp with pending := dbPut c2wp.pending (keyOf c1ev) (PendVal.good c1ev),
                    evidenceSize := c2wp.evidenceSize + 1,
                    evidenceList := c2wp.evidenceList ++ [c1ev] }) :=
  ⟨by decide, by decide,
    (c2_add_evidence_spec vtrue c2wp c1ev (by decide)).2.2.2.2 (by decide) (by decide) rfl⟩

/- ### C7 -/

/-- C7: `Update` aborts fatally (modelled as `none`) iff the new
state's height is not strictly greater than the pool's; when it is
strictly greater, `Update` succeeds and the resulting pool's state
snapshot is the new state. -/

theorem c7_update_spec (p : PoolState) (ns : LatestBlockState) (evs : List Evidence) :
    (Update p ns evs = none ↔ ns.lastBlockHeight ≤ p.state.lastBlockHeight) ∧
    (p.state.lastBlockHeight < ns.lastBlockHeight →
      ((Update p ns evs).getD p).state = ns) := by
  constructor
  · unfold Update
    split
    · rename_i h
      simpa using h
    · rename_i h
      constructor
      · intro hc
        dsimp only at hc
        split at hc <;> simp_all
      · intro hle
        exact absurd hle h
  · intro h
    unfold Update
    rw [if_neg (by omega)]
    have hmark : (markEvidenceAsCommitted { p with state := ns } evs).state = ns :=
      markEvidenceAsCommitted_state { p with state := ns } evs
    dsimp only
    split
    · simp only [Option.getD_some]
      show (removeExpiredPendingEvidence (markEvidenceAsCommitted { p with state := ns } evs)).1.state = ns
      rw [removeExpiredPendingEvidence, pruneGo_state, hmark]
    · simpa using hmark

/-- Concrete pool for the C7 witness. -/

theorem c7_witness :
    c7wp.state.lastBlockHeight < c7ns.lastBlockHeight ∧
      ((Update c7wp c7ns []).getD c7wp).state = c7ns :=
  ⟨by decide, (c7_update_spec c7wp c7ns []).2 (by decide)⟩

/- ### C8 -/

/-- Evidence used by the C8 counterexample. -/

theorem c8_counterexample :
    (CheckEvidence vtrue c8cp [c8ev, c8ev]).1 = some (c8ev, CheckReason.alreadyCommitted) ∧
      CheckReason.alreadyCommitted ≠ CheckReason.duplicateEvidence := by decide

/-- C8 (amended): `CheckEvidence([ev, ev])` always fails with an
`ErrInvalidEvidence`; the reason is duplicate evidence when the
evidence is already pending, or uncommitted and passing verification;
when it is already committed the reason is already-committed, and
when verification fails the reason is the verification failure. -/

theorem c8_check_duplicate_spec (vo : Evidence → Bool) (p : PoolState) (ev : Evidence) :
    ((CheckEvidence vo p [ev, ev]).1.isSome = true) ∧
    (isPending p ev = true →
      (CheckEvidence vo p [ev, ev]).1 = some (ev, CheckReason.duplicateEvidence)) ∧
    (isPending p ev = false → isCommitted p ev = true →
      (CheckEvidence vo p [ev, ev]).1 = some (ev, CheckReason.alreadyCommitted)) ∧
    (isPending p ev = false → isCommitted p ev = false → vo ev = false →
      (CheckEvidence vo p [ev, ev]).1 = some (ev, CheckReason.verifyFailed)) ∧
    (isPending p ev = false → isCommitted p ev = false → vo ev = true →
      (CheckEvidence vo p [ev, ev]).1 = some (ev, CheckReason.duplicateEvidence)) := by
  have hpend : ∀ h1 : isPending p ev = true,
      (CheckEvidence vo p [ev, ev]).1 = some (ev, CheckReason.duplicateEvidence) := by
    intro h1
    simp [CheckEvidence, checkGo, h1]
  have hcomm : ∀ (_ : isPending p ev = false) (_ : isCommitted p ev = true),
      (CheckEvidence vo p [ev, ev]).1 = some (ev, CheckReason.alreadyCommitted) := by
    intro h1 h2
    simp [CheckEvidence, checkGo, h1, h2]
  have hver : ∀ (_ : isPending p ev = false) (_ : isCommitted p ev = false)
      (_ : vo ev = false),
      (CheckEvidence vo p [ev, ev]).1 = some (ev, CheckReason.verifyFailed) := by
    intro h1 h2 h3
    simp [CheckEvidence, checkGo, h1, h2, h3]
  have hok : ∀ (_ : isPending p ev = false) (_ : isCommitted p ev = false)
      (_ : vo ev = true),
      (CheckEvidence vo p [ev, ev]).1 = some (ev, CheckReason.duplicateEvidence) := by
    intro h1 h2 h3
    have hp1 : isPending (addPendingEvidence p ev) ev = true :=
      dbHas_dbPut_self p.pending (keyOf ev) (PendVal.good ev)
    simp [CheckEvidence, checkGo, h1, h2, h3, hp1]
  refine ⟨?_, hpend, hcomm, hver, hok⟩
  cases h1 : isPending p ev with
  | true => rw [hpend h1]; rfl
  | false =>
    cases h2 : isCommitted p ev with
    | true => rw [hcomm h1 h2]; rfl
    | false =>
      cases h3 : vo ev with
      | true => rw [hok h1 h2 h3]; rfl
      | false => rw [hver h1 h2 h3]; rfl

/-- Pool with `c8ev` pending, for the C8 witness. -/

theorem c8_witness :
    isPending c8wp c8ev = true ∧
      (CheckEvidence vtrue c8wp [c8ev, c8ev]).1 = some (c8ev, CheckReason.duplicateEvidence) :=
  ⟨by decide, (c8_check_duplicate_spec vtrue c8wp c8ev).2.1 (by decide)⟩

/- ### C9 -/

/-- C9 (amended, structural part): the pruning scan skips an entry
whose bytes fail to unmarshal and continues with the remaining
entries (the entry is not deleted, `removePendingEvidence` is not
invoked on it), while the listing scan stops at the first such entry
and returns the evidence accumulated so far together with the error
flag. -/

theorem c9_scan_error_spec (p : PoolState) (k : Key) (rest : List (Key × PendVal))
    (m : List Nat) (maxBytes : Int) (acc : List Evidence) (sz : Nat) (total : Int) :
    pruneGo p ((k, PendVal.bad) :: rest) m = pruneGo p rest m ∧
    listGo maxBytes ((k, PendVal.bad) :: rest) acc sz total = (acc, total, true) :=
  ⟨rfl, rfl⟩

/-- Evidence used by the C9 counterexample. -/

theorem c9_counterexample :
    listEvidence [((1, 1), PendVal.bad), ((8, 2), PendVal.good c9ev)] (-1) = ([], 0, true) ∧
      NewPool [((1, 1), PendVal.bad), ((8, 2), PendVal.good c9ev)] [] c1st = none := by decide

/- ### C10 -/

/-- C10 (amended): for evidence whose height `h` strictly exceeds the
last block height with `h - last < 2^64 - uint64(MaxAgeNumBlocks)`
(every realistic future height), the wrapped uint64 block age exceeds
the block bound, so expiry is decided by the duration condition
alone; for larger differences the wrapped age can be small and the
height bound protects the record again. -/

theorem c10_future_height_spec (p : PoolState) (h : Nat) (t : Int)
    (hfut : p.state.lastBlockHeight < h) (hh : h < U64)
    (hwrap : h - p.state.lastBlockHeight < U64 - toU64 p.state.maxAgeNumBlocks) :
    usub64 p.state.lastBlockHeight h > toU64 p.state.maxAgeNumBlocks ∧
    isExpired p h t = decide (timeSub p.state.lastBlockTime t > p.state.maxAgeDuration) := by
  have hval : usub64 p.state.lastBlockHeight h = U64 - (h - p.state.lastBlockHeight) := by
    unfold usub64
    rw [Nat.mod_eq_of_lt hh]
    have heq : p.state.lastBlockHeight + U64 - h = U64 - (h - p.state.lastBlockHeight) := by
      omega
    rw [heq, Nat.mod_eq_of_lt (by omega)]
  have hgt : usub64 p.state.lastBlockHeight h > toU64 p.state.maxAgeNumBlocks := by
    rw [hval]; omega
  refine ⟨hgt, ?_⟩
  unfold isExpired
  dsimp only
  rw [decide_eq_true hgt, Bool.true_and]

/-- Concrete pool for the C10 witness (chain at height 10, age bound
5 blocks). -/

theorem c10_witness :
    usub64 c10wp.state.lastBlockHeight 12 > toU64 c10wp.state.maxAgeNumBlocks ∧
      isExpired c10wp 12 0 =
        decide (timeSub c10wp.state.lastBlockTime 0 > c10wp.state.maxAgeDuration) :=
  c10_future_height_spec c10wp 12 0 (by decide) (by decide) (by decide)

/-- Chain state at height 2 with a 3-block age bound, for the C10
counterexample. -/

theorem c10_counterexample :
    isExpired c10cp (2 ^ 64 - 1) 0 = false ∧
      timeSub c10cp.state.lastBlockTime 0 > c10cp.state.maxAgeDuration := by decide

/- ### C3 -/

theorem usub64_of_le {a b : Nat} (hL : a < U64) (hba : b ≤ a) : usub64 a b = a - b := by
  unfold usub64
  rw [Nat.mod_eq_of_lt (show b < U64 by omega)]
  have heq : a + U64 - b = (a - b) + U64 := by omega
  rw [heq, Nat.add_mod_right, Nat.mod_eq_of_lt (show a - b < U64 by omega)]

theorem toU64_of_bounds {i : Int} (h0 : 0 ≤ i) (h1 : i < (U64 : Int)) :
    toU64 i = i.toNat := by
  unfold toU64
  rw [Int.emod_eq_of_lt h0 h1]

theorem timeSub_of_bounds {t u : Int} (h0 : durMin ≤ t - u) (h1 : t - u ≤ durMax) :
    timeSub t u = t - u := by
  unfold timeSub
  rw [min_eq_right h1, max_eq_right h0]

/-- C3 (amended): for evidence whose height does not exceed the last
block height, with a non-negative `MaxAgeNumBlocks` (as an int64) and
an age within the int64 duration range, the record is classified
expired if and only if both age conditions hold over the true
integers; for a height beyond the last block height the uint64
subtraction wraps and the record can be classified expired although
its integer block age is negative (see the C10 theorems). -/

theorem c3_expiry_iff (p : PoolState) (h0 : Nat) (t0 : Int)
    (hL : p.state.lastBlockHeight < U64)
    (hh : h0 ≤ p.state.lastBlockHeight)
    (hB0 : 0 ≤ p.state.maxAgeNumBlocks) (hB1 : p.state.maxAgeNumBlocks < (U64 : Int))
    (ht0 : durMin ≤ p.state.lastBlockTime - t0) (ht1 : p.state.lastBlockTime - t0 ≤ durMax) :
    isExpired p h0 t0 = true ↔
      expiredSpec (p.state.lastBlockHeight : Int) p.state.lastBlockTime
        p.state.maxAgeNumBlocks p.state.maxAgeDuration (h0 : Int) t0 := by
  unfold isExpired expiredSpec
  dsimp only
  rw [usub64_of_le hL hh, toU64_of_bounds hB0 hB1, timeSub_of_bounds ht0 ht1]
  simp only [Bool.and_eq_true, decide_eq_true_eq]
  constructor
  · rintro ⟨ha, hb⟩
    exact ⟨by omega, hb⟩
  · rintro ⟨ha, hb⟩
    exact ⟨by omega, hb⟩

/-- Pool used by the C3 witness and counterexample (chain at height
10). -/

theorem c3_witness :
    isExpired c3cp 3 0 = true ↔
      expiredSpec (c3cp.state.lastBlockHeight : Int) c3cp.state.lastBlockTime
        c3cp.state.maxAgeNumBlocks c3cp.state.maxAgeDuration (3 : Int) 0 :=
  c3_expiry_iff c3cp 3 0 (by decide) (by decide) (by decide) (by decide)
    (by decide) (by decide)

/-- C3 counterexample: evidence at height 11 with the chain at height
10 — the integer block age is negative, so the claim's conjunction is
false, yet the code classifies the record as expired because the
uint64 subtraction wraps. -/

theorem c3_counterexample :
    isExpired c3cp 11 (500 * oneSecond) = true ∧
      ¬ expiredSpec (c3cp.state.lastBlockHeight : Int) c3cp.state.lastBlockTime
        c3cp.state.maxAgeNumBlocks c3cp.state.maxAgeDuration (11 : Int)
        (500 * oneSecond) := by decide

/- ### C6 -/

theorem evsSize_append (l : List Evidence) (ev : Evidence) :
    evsSize (l ++ [ev]) = evsSize l + ev.protoSize := by
  unfold evsSize
  rw [List.foldl_append]
  rfl

theorem listGo_bound (mb : Int) (hmb : 0 ≤ mb) :
    ∀ (entries : PendDB) (acc : List Evidence) (sz : Nat) (total : Int),
      total ≤ mb → total = (sz : Int) → sz = evsSize acc →
      (listGo mb entries acc sz total).2.1 ≤ mb ∧
      (listGo mb entries acc sz total).2.1 =
        (evsSize (listGo mb entries acc sz total).1 : Int) := by
  intro entries
  induction entries with
  | nil =>
    intro acc sz total h1 h2 h3
    exact ⟨h1, by simp [listGo, h2, h3]⟩
  | cons kv rest ih =>
    intro acc sz total h1 h2 h3
    obtain ⟨k, v⟩ := kv
    cases v with
    | bad => exact ⟨h1, by simp [listGo, h2, h3]⟩
    | good ev =>
      rw [listGo]
      split
      · exact ⟨h1, by simp [h2, h3]⟩
      · rename_i hcond
        refine ih (acc ++ [ev]) (sz + ev.protoSize) ((sz + ev.protoSize : Nat) : Int)
          ?_ rfl ?_
        · have hne : mb ≠ -1 := by omega
          by_contra hgt
          exact hcond ⟨hne, by omega⟩
        · rw [evsSize_append, h3]

theorem listGo_minus_one :
    ∀ (entries : PendDB), (∀ kv ∈ entries, ∃ ev, kv.2 = PendVal.good ev) →
      ∀ (acc : List Evidence) (sz : Nat) (total : Int),
      total = (sz : Int) → sz = evsSize acc →
      listGo (-1) entries acc sz total =
        (acc ++ pendingEvs entries, (evsSize (acc ++ pendingEvs entries) : Int), false) := by
  intro entries
  induction entries with
  | nil =>
    intro _ acc sz total h2 h3
    simp [listGo, pendingEvs, h2, h3]
  | cons kv rest ih =>
    intro hgood acc sz total h2 h3
    obtain ⟨k, v⟩ := kv
    obtain ⟨ev, hev⟩ := hgood (k, v) (by simp)
    dsimp only at hev
    subst hev
    rw [listGo]
    rw [if_neg (by simp)]
    rw [ih (fun kv hkv => hgood kv (List.mem_cons_of_mem _ hkv)) (acc ++ [ev])
      (sz + ev.protoSize) ((sz + ev.protoSize : Nat) : Int) rfl
      (by rw [evsSize_append, h3])]
    simp [pendingEvs]

/-- C6 (amended): for `max_bytes ≥ 0`, `PendingEvidence` never
returns a list whose accumulated serialized size exceeds `max_bytes`,
and it returns that accumulated size; unbounded retrieval happens for
`max_bytes = -1` exactly — it returns every pending item (when all
entries decode and the size counter is consistent with emptiness),
while any other negative bound returns the empty list, because the
non-negative accumulated size already exceeds it at the first item. -/

theorem c6_pending_evidence_spec (p : PoolState) (mb : Int)
    (hsz : p.evidenceSize = 0 → p.pending = []) :
    (0 ≤ mb → (PendingEvidence p mb).2 ≤ mb ∧
      (PendingEvidence p mb).2 = (evsSize (PendingEvidence p mb).1 : Int)) ∧
    ((∀ kv ∈ p.pending, ∃ ev, kv.2 = PendVal.good ev) →
      PendingEvidence p (-1) =
        (pendingEvs p.pending, (evsSize (pendingEvs p.pending) : Int))) := by
  constructor
  · intro hmb
    unfold PendingEvidence
    split
    · exact ⟨hmb, by simp [evsSize]⟩
    · exact listGo_bound mb hmb p.pending [] 0 0 hmb rfl rfl
  · intro hgood
    unfold PendingEvidence
    split
    · rename_i h0
      rw [hsz h0]
      simp [pendingEvs, evsSize]
    · unfold listEvidence
      rw [listGo_minus_one p.pending hgood [] 0 0 rfl rfl]
      simp

/-- Pending evidence used by the C6 witness and counterexample. -/

theorem c6_witness :
    ((PendingEvidence c6cp 3).2 ≤ 3 ∧
      (PendingEvidence c6cp 3).2 = (evsSize (PendingEvidence c6cp 3).1 : Int)) ∧
      PendingEvidence c6cp (-1) =
        (pendingEvs c6cp.pending, (evsSize (pendingEvs c6cp.pending) : Int)) :=
  ⟨(c6_pending_evidence_spec c6cp 3 (by decide)).1 (by decide),
    (c6_pending_evidence_spec c6cp (-1) (by decide)).2 (by
      intro kv hkv
      simp only [c6cp, List.mem_singleton] at hkv
      subst hkv
      exact ⟨c6ev, rfl⟩)⟩

/-- C6 counterexample: `max_bytes = -2` is negative but not treated
as unbounded — the call returns no items at all, not all pending
items. -/

theorem c6_counterexample :
    PendingEvidence c6cp (-2) = ([], 0) ∧ pendingEvs c6cp.pending = [c6ev] := by decide

/- ### C4 -/

theorem pending_ite_removeList (p : PoolState) (m : List Nat) (c : Prop) [Decidable c] :
    (if c then p else removeEvidenceFromList p m).pending = p.pending := by
  split <;> rfl

theorem state_ite_removeList (p : PoolState) (m : List Nat) (c : Prop) [Decidable c] :
    (if c then p else removeEvidenceFromList p m).state = p.state := by
  split <;> rfl

theorem entryExpired_eq_of_state (p q : PoolState) (h : q.state = p.state) :
    entryExpired q = entryExpired p := by
  funext kv
  obtain ⟨k, v⟩ := kv
  cases v with
  | good ev => simp [entryExpired, isExpired, h]
  | bad => rfl

theorem dbDelete_cons_self {α : Type} (k : Key) (v : α) (rest : List (Key × α))
    (hk : ∀ e ∈ rest, e.1 ≠ k) :
    dbDelete ((k, v) :: rest) k = rest := by
  unfold dbDelete
  rw [List.filter_cons_of_neg (by simp)]
  exact List.filter_eq_self.mpr (fun e he => by simp [hk e he])

/-- Definitional unfolding of `pruneGo` at a decodable head entry. -/

theorem pruneGo_cons_good (p : PoolState) (k : Key) (ev : Evidence)
    (rest : List (Key × PendVal)) (m : List Nat) :
    pruneGo p ((k, PendVal.good ev) :: rest) m =
      if isExpired p ev.height ev.time then
        pruneGo (removePendingEvidence p ev) rest (m ++ [ev.hash])
      else
        (if m.isEmpty then p else removeEvidenceFromList p m,
          (ev.height +
            toU64 (if m.isEmpty then p else removeEvidenceFromList p m).state.maxAgeNumBlocks + 1) % U64,
          ev.time +
            (if m.isEmpty then p else removeEvidenceFromList p m).state.maxAgeDuration + oneSecond) := rfl

/-- Structure of one pruning pass over a well-formed pending
namespace (all entries decode, entry keys match their evidence and
are distinct): the expired prefix is removed, the scan stops at the
first non-expired record, and the returned watermark is as the claim
states. -/

theorem pruneGo_spec (entries : List (Key × PendVal)) :
    ∀ (p : PoolState) (m : List Nat),
      p.pending = entries →
      (∀ kv ∈ entries, ∃ ev, kv.2 = PendVal.good ev ∧ kv.1 = keyOf ev) →
      (entries.map Prod.fst).Nodup →
      (pruneGo p entries m).1.pending = entries.dropWhile (entryExpired p) ∧
      (entries.dropWhile (entryExpired p) = [] →
        (pruneGo p entries m).2 = (p.state.lastBlockHeight, p.state.lastBlockTime)) ∧
      (∀ k' ev' rest', entries.dropWhile (entryExpired p) = (k', PendVal.good ev') :: rest' →
        (pruneGo p entries m).2 =
          ((ev'.height + toU64 p.state.maxAgeNumBlocks + 1) % U64,
            ev'.time + p.state.maxAgeDuration + oneSecond)) := by
  induction entries with
  | nil =>
    intro p m hpend hgood hnodup
    refine ⟨?_, ?_, ?_⟩
    · unfold pruneGo
      dsimp only
      rw [pending_ite_removeList, hpend]
      simp
    · intro _
      unfold pruneGo
      dsimp only
      rw [state_ite_removeList]
    · intro k' ev' rest' hcontra
      simp at hcontra
  | cons kv rest ih =>
    intro p m hpend hgood hnodup
    obtain ⟨k, v⟩ := kv
    obtain ⟨ev, hveq, hkeq⟩ := hgood (k, v) (by simp)
    dsimp only at hveq hkeq
    subst hveq
    subst hkeq
    have hhead : entryExpired p (keyOf ev, PendVal.good ev) = isExpired p ev.height ev.time := rfl
    have hn2 : ((keyOf ev) :: rest.map Prod.fst).Nodup := by
      rw [List.map_cons] at hnodup
      exact hnodup
    have hcons := List.nodup_cons.mp hn2
    cases hex : isExpired p ev.height ev.time with
    | true =>
      have hstep : pruneGo p ((keyOf ev, PendVal.good ev) :: rest) m =
          pruneGo (removePendingEvidence p ev) rest (m ++ [ev.hash]) := by
        rw [pruneGo_cons_good, if_pos hex]
      have hkmem : ∀ e ∈ rest, e.1 ≠ keyOf ev := by
        intro e he hcontra
        exact hcons.1 (hcontra ▸ List.mem_map_of_mem Prod.fst he)
      have hpend' : (removePendingEvidence p ev).pending = rest := by
        show dbDelete p.pending (keyOf ev) = rest
        rw [hpend]
        exact dbDelete_cons_self (keyOf ev) (PendVal.good ev) rest hkmem
      have hIH := ih (removePendingEvidence p ev) (m ++ [ev.hash]) hpend'
        (fun kv hkv => hgood kv (List.mem_cons_of_mem _ hkv))
        hcons.2
      rw [entryExpired_eq_of_state p (removePendingEvidence p ev) rfl] at hIH
      rw [state_removePendingEvidence] at hIH
      have hdrop : ((keyOf ev, PendVal.good ev) :: rest).dropWhile (entryExpired p) =
          rest.dropWhile (entryExpired p) := by
        rw [List.dropWhile_cons, hhead, hex]
        simp
      rw [hstep, hdrop]
      exact hIH
    | false =>
      have hstep : pruneGo p ((keyOf ev, PendVal.good ev) :: rest) m =
          (if m.isEmpty then p else removeEvidenceFromList p m,
            (ev.height + toU64 (if m.isEmpty then p else removeEvidenceFromList p m).state.maxAgeNumBlocks + 1) % U64,
            ev.time + (if m.isEmpty then p else removeEvidenceFromList p m).state.maxAgeDuration + oneSecond) := by
        rw [pruneGo_cons_good, if_neg (by simp [hex])]
      have hdrop : ((keyOf ev, PendVal.good ev) :: rest).dropWhile (entryExpired p) =
          (keyOf ev, PendVal.good ev) :: rest := by
        rw [List.dropWhile_cons, hhead, hex]
        simp
      refine ⟨?_, ?_, ?_⟩
      · rw [hstep, hdrop]
        dsimp only
        rw [pending_ite_removeList, hpend]
      · intro hcontra
        rw [hdrop] at hcontra
        cases hcontra
      · intro k' ev' rest' heq
        rw [hdrop] at heq
        obtain ⟨heq1, heq2⟩ := List.cons.injEq _ _ _ _ ▸ heq
        obtain ⟨-, heqv⟩ := Prod.mk.injEq _ _ _ _ ▸ heq1
        cases heqv
        rw [hstep]
        dsimp only
        rw [state_ite_removeList]


/-- C4: a pruning pass scans the pending namespace in key order,
removes exactly the leading run of expired records, stops at the
first non-expired record `ev'` returning the watermark
`(ev'.height + maxAgeNumBlocks + 1, ev'.time + maxAgeDuration + 1s)`
(uint64 arithmetic on the height), and when the scan exhausts with no
survivor returns the chain state's last block height and time. -/

theorem c4_pruning_pass_spec (p : PoolState)
    (hgood : ∀ kv ∈ p.pending, ∃ ev, kv.2 = PendVal.good ev ∧ kv.1 = keyOf ev)
    (hnodup : (p.pending.map Prod.fst).Nodup) :
    (removeExpiredPendingEvidence p).1.pending = p.pending.dropWhile (entryExpired p) ∧
    (p.pending.dropWhile (entryExpired p) = [] →
      (removeExpiredPendingEvidence p).2 =
        (p.state.lastBlockHeight, p.state.lastBlockTime)) ∧
    (∀ k' ev' rest', p.pending.dropWhile (entryExpired p) = (k', PendVal.good ev') :: rest' →
      (removeExpiredPendingEvidence p).2 =
        ((ev'.height + toU64 p.state.maxAgeNumBlocks + 1) % U64,
          ev'.time + p.state.maxAgeDuration + oneSecond)) :=
  pruneGo_spec p.pending p [] rfl hgood hnodup

/-- Expired pending evidence (height 10, very old) for the C4
witness. -/

theorem c4_witness :
    (removeExpiredPendingEvidence c4wp).1.pending =
        c4wp.pending.dropWhile (entryExpired c4wp) ∧
      (removeExpiredPendingEvidence c4wp).2 =
        ((c4fresh.height + toU64 c4wp.state.maxAgeNumBlocks + 1) % U64,
          c4fresh.time + c4wp.state.maxAgeDuration + oneSecond) :=
  ⟨(c4_pruning_pass_spec c4wp
      (by
        intro kv hkv
        simp only [c4wp, List.mem_cons, List.mem_singleton] at hkv
        rcases hkv with h | h | h
        · exact ⟨c4old, by rw [h], by rw [h]; rfl⟩
        · exact ⟨c4fresh, by rw [h], by rw [h]; rfl⟩
        · cases h)
      (by decide)).1,
    (c4_pruning_pass_spec c4wp
      (by
        intro kv hkv
        simp only [c4wp, List.mem_cons, List.mem_singleton] at hkv
        rcases hkv with h | h | h
        · exact ⟨c4old, by rw [h], by rw [h]; rfl⟩
        · exact ⟨c4fresh, by rw [h], by rw [h]; rfl⟩
        · cases h)
      (by decide)).2.2 (98, 2) c4fresh [] (by decide)⟩

/- ### C5 -/

/-- C5 (amended): whenever the pruning pass runs under `Update`'s
guard (pool non-empty, new height strictly beyond the watermark
height, new time strictly beyond the watermark time) over a
well-formed, in-range pending namespace, at least one component of
the returned watermark strictly exceeds the previous watermark; the
other component may decrease (see `c5_counterexample`). -/

theorem c5_watermark_progress (entries : List (Key × PendVal)) :
    ∀ (p : PoolState) (m : List Nat),
      p.pruningHeight < p.state.lastBlockHeight →
      p.pruningTime < p.state.lastBlockTime →
      p.state.lastBlockHeight < U64 →
      (∀ kv ∈ entries, ∀ ev, kv.2 = PendVal.good ev →
        ev.height ≤ p.state.lastBlockHeight ∧
        ev.height + toU64 p.state.maxAgeNumBlocks + 1 < U64 ∧
        durMin ≤ p.state.lastBlockTime - ev.time ∧
        p.state.lastBlockTime - ev.time ≤ durMax) →
      p.pruningHeight < (pruneGo p entries m).2.1 ∨
      p.pruningTime < (pruneGo p entries m).2.2 := by
  induction entries with
  | nil =>
    intro p m hgH hgT hL hB
    left
    show p.pruningHeight <
      (if m.isEmpty then p else removeEvidenceFromList p m).state.lastBlockHeight
    rw [state_ite_removeList]
    exact hgH
  | cons kv rest ih =>
    intro p m hgH hgT hL hB
    obtain ⟨k, v⟩ := kv
    cases v with
    | bad =>
      exact ih p m hgH hgT hL (fun kv hkv => hB kv (List.mem_cons_of_mem _ hkv))
    | good ev =>
      cases hex : isExpired p ev.height ev.time with
      | true =>
        have hrec := ih (removePendingEvidence p ev) (m ++ [ev.hash]) hgH hgT hL
          (fun kv hkv => hB kv (List.mem_cons_of_mem _ hkv))
        rw [pruneGo_cons_good, if_pos hex]
        exact hrec
      | false =>
        obtain ⟨hh, hov, ht0, ht1⟩ := hB (k, PendVal.good ev) (by simp) ev rfl
        have hdis : usub64 p.state.lastBlockHeight ev.height ≤ toU64 p.state.maxAgeNumBlocks ∨
            timeSub p.state.lastBlockTime ev.time ≤ p.state.maxAgeDuration := by
          by_contra hcc
          push_neg at hcc
          have hx : isExpired p ev.height ev.time = true := by
            unfold isExpired
            dsimp only
            rw [decide_eq_true hcc.1, decide_eq_true hcc.2]
            rfl
          rw [hex] at hx
          cases hx
        rw [pruneGo_cons_good, if_neg (by simp [hex])]
        rcases hdis with hA | hD
        · left
          show p.pruningHeight <
            (ev.height +
              toU64 (if m.isEmpty then p else removeEvidenceFromList p m).state.maxAgeNumBlocks + 1) % U64
          rw [state_ite_removeList]
          rw [usub64_of_le hL hh] at hA
          rw [Nat.mod_eq_of_lt hov]
          omega
        · right
          show p.pruningTime < ev.time +
            (if m.isEmpty then p else removeEvidenceFromList p m).state.maxAgeDuration + oneSecond
          rw [state_ite_removeList]
          rw [timeSub_of_bounds ht0 ht1] at hD
          have hsec : 0 < oneSecond := by norm_num [oneSecond]
          omega

/-- Pool with one fresh pending record at height 98, for the C5
witness. -/

theorem c5_witness :
    c5wp.pruningHeight < (pruneGo c5wp c5wp.pending []).2.1 ∨
      c5wp.pruningTime < (pruneGo c5wp c5wp.pending []).2.2 :=
  c5_watermark_progress c5wp.pending c5wp [] (by decide) (by decide) (by decide)
    (by
      intro kv hkv ev hev
      simp only [c5wp, List.mem_singleton] at hkv
      subst hkv
      cases hev
      refine ⟨by decide, by decide, by decide, by decide⟩)

/-- Pool reached by constructing on empty storage at height 100 and
admitting, through the consensus path, evidence at the old height 50
but with a recent timestamp. -/

theorem c5_counterexample :
    c5p1.pruningHeight = 100 ∧ c5p2.pruningHeight = 56 := by decide

end EvidencePool
